import Mathlib

/-!
# Verification of the github-scraper harvester (src/index.js)

A shallow embedding of the rate-governed pagination harvester in
`src/index.js`.  JavaScript values that the script inspects for truthiness
are modelled by the inductive `JSValue`; machine integers in the script are
plain JS numbers used as counters and epoch values, modelled by `Nat`/`Int`.
Code that can throw (the `new Date(...).toISOString()` call, a rejected
fetch) is modelled with `Except`.  Each definition carries a reference to
the source lines it embeds.
-/

namespace GithubScraper

/-- A JavaScript value as far as the script inspects one: `null`,
`undefined` (an absent property), a boolean, a number or a string.
Numbers appearing in the script are integers (counters, epochs). -/
inductive JSValue : Type
  | null
  | undef
  | bool (b : Bool)
  | num (n : Int)
  | str (s : String)
deriving DecidableEq

/-- JavaScript truthiness: `null`, `undefined`, `false`, `0` and `""` are
falsy, everything else the script handles is truthy. -/
def truthy : JSValue → Bool
  | JSValue.null => false
  | JSValue.undef => false
  | JSValue.bool b => b
  | JSValue.num n => n != 0
  | JSValue.str s => s != ""

/-- The JavaScript `a || b` operator: returns `a` when truthy, else `b`. -/
def jsOr (a b : JSValue) : JSValue :=
  if truthy a then a else b

/-- JavaScript `String(value)` on the values above. -/
def jsToString : JSValue → String
  | JSValue.null => "null"
  | JSValue.undef => "undefined"
  | JSValue.bool b => if b then "true" else "false"
  | JSValue.num n => toString n
  | JSValue.str s => s

/-! ## CSV encoding (src/index.js lines 45-73) -/

/-- The quoting condition of `escapeCsvValue` (line 51): the string
contains a comma, a newline or a double quote. -/
def needsQuoting (s : List Char) : Bool :=
  s.contains ',' || s.contains '\n' || s.contains '"'

/-- `stringValue.replace(/"/g, '""')` (line 52): double every `"`. -/
def doubleQuotes : List Char → List Char
  | [] => []
  | c :: cs => if c = '"' then '"' :: '"' :: doubleQuotes cs else c :: doubleQuotes cs

/-- The string-level core of `escapeCsvValue` (lines 50-55): wrap in
double quotes, doubling embedded quotes, exactly when the value contains
a comma, a newline or a quote. -/
def escapeCsvChars (s : List Char) : List Char :=
  if needsQuoting s then '"' :: (doubleQuotes s ++ ['"']) else s

/-- `escapeCsvValue` (lines 45-56): `null`/`undefined` become the empty
string; any other value is stringified and quote-escaped. -/
def escapeCsvValue (v : JSValue) : String :=
  match v with
  | JSValue.null => ""
  | JSValue.undef => ""
  | w => String.mk (escapeCsvChars (jsToString w).data)

/-- A JavaScript object, as the script builds one for a CSV row: an
association list from property names to values; `row[header]` on a
missing property yields `undefined`. -/
def getField (row : List (String × JSValue)) (key : String) : JSValue :=
  match row.find? (fun p => p.1 == key) with
  | some p => p.2
  | none => JSValue.undef

/-- One cell of `convertToCsv` (line 69): `escapeCsvValue(row[header] || "")`. -/
def csvCell (row : List (String × JSValue)) (header : String) : String :=
  escapeCsvValue (jsOr (getField row header) (JSValue.str ""))

/-- `convertToCsv` (lines 61-73): header row from the given headers (or
the first row's keys when absent), then one line per row, cells joined
with commas, lines joined with newlines. -/
def convertToCsv (dataArray : List (List (String × JSValue)))
    (headers : Option (List String)) : String :=
  match dataArray with
  | [] => ""
  | first :: _ =>
    let actualHeaders := match headers with
      | some hs => hs
      | none => first.map Prod.fst
    let headerRow := String.intercalate ","
      (actualHeaders.map (fun h => escapeCsvValue (JSValue.str h)))
    let dataRows := dataArray.map (fun row =>
      String.intercalate "," (actualHeaders.map (fun h => csvCell row h)))
    String.intercalate "\n" (headerRow :: dataRows)

/-! ### A standard CSV field decoder, used only to state the round-trip
property of the encoder (spec section 8).  It is not part of the script. -/

/-- Parse the body of a quoted CSV field after the opening quote, for an
input that is a single field: a doubled quote contributes one quote, the
closing quote must end the input. -/
def parseQuotedBody : List Char → Option (List Char)
  | [] => none
  | c :: cs =>
    if c = '"' then
      match cs with
      | [] => some []
      | c2 :: cs2 =>
        if c2 = '"' then (parseQuotedBody cs2).map (fun t => '"' :: t) else none
    else (parseQuotedBody cs).map (fun t => c :: t)

/-- Decode a single CSV field: a field starting with a quote is parsed as
a quoted field, anything else is taken verbatim. -/
def decodeCsvField (s : List Char) : Option (List Char) :=
  match s with
  | [] => some []
  | c :: rest => if c = '"' then parseQuotedBody rest else some (c :: rest)

/-! ## Rate limit tracking (src/index.js lines 26-32, 95-103, 155-172) -/

/-- `rateLimitInfo` (lines 26-29): `remaining` is a number or the
`Infinity` sentinel (modelled `none`); `resetTimestamp` is an epoch in
seconds. -/
structure RateLimitInfo where
  remaining : Option Nat
  resetTimestamp : Nat
deriving DecidableEq

/-- `RATE_LIMIT_PAUSE_THRESHOLD` (line 32). -/
def RATE_LIMIT_PAUSE_THRESHOLD : Nat := 10

/-- The pause condition of `checkAndHandleRateLimits` (line 156):
`rateLimitInfo.remaining < RATE_LIMIT_PAUSE_THRESHOLD`, where
`Infinity < n` is false. -/
def shouldPause (info : RateLimitInfo) : Bool :=
  match info.remaining with
  | none => false
  | some n => decide (n < RATE_LIMIT_PAUSE_THRESHOLD)

/-- `checkAndHandleRateLimits` (lines 155-172) at time `now`
(milliseconds): when the pause condition holds and the computed wait time
`resetTimestamp*1000 - now + 10000` is positive, the function sleeps and
then sets `remaining` to the `Infinity` sentinel.  Returns the updated
state and whether a pause occurred. -/
def checkAndHandleRateLimits (now : Int) (info : RateLimitInfo) :
    RateLimitInfo × Bool :=
  if shouldPause info then
    let waitTime : Int := (info.resetTimestamp : Int) * 1000 - now + 10000
    if 0 < waitTime then ({ info with remaining := none }, true)
    else (info, false)
  else (info, false)

/-- The header processing of `fetchGitHubAPI` (lines 97-103): each of the
two rate-limit headers overwrites its field only when present in the
response. -/
def updateRateLimitFromHeaders (hRemaining hReset : Option Nat)
    (info : RateLimitInfo) : RateLimitInfo :=
  let info1 := match hRemaining with
    | some r => { info with remaining := some r }
    | none => info
  match hReset with
  | some t => { info1 with resetTimestamp := t }
  | none => info1

/-! ## Contributor normalization (src/index.js lines 214-222) -/

/-- `BOT_USER_TO_FILTER` (line 18). -/
def BOT_USER_TO_FILTER : String := "dependabot[bot]"

/-- A raw contributor record as returned by the contributors endpoint;
every property the mapping reads, with `JSValue.undef` for an absent
property and `JSValue.null` for an explicit `null`. -/
structure RawContributor where
  login : JSValue
  type : JSValue
  name : JSValue
  email : JSValue
  html_url : JSValue
  contributions : JSValue
deriving DecidableEq

/-- The per-contributor mapping of `processAllContributors`
(lines 214-222), producing the CSV row object in the literal's property
order.  Note the comparison `c.type === "Anonymous:"` on line 216 is
reproduced verbatim, trailing colon included. -/
def normalizeContributor (c : RawContributor) : List (String × JSValue) :=
  [("Login", jsOr c.login
      (if c.type = JSValue.str "Anonymous:" then
        JSValue.str ("Anonymous (" ++ jsToString (jsOr c.name (JSValue.str "Unknown")) ++ ")")
      else JSValue.str "N/A")),
   ("Contributions", c.contributions),
   ("ProfileURL", jsOr c.html_url (JSValue.str "N/A")),
   ("Type", c.type),
   ("Email", jsOr c.email (JSValue.str "N/A")),
   ("Name", jsOr c.name (JSValue.str "N/A"))]

/-- The explicit contributor header list (line 224). -/
def CONTRIBUTORS_CSV_HEADERS : List String :=
  ["Login", "Contributions", "ProfileURL", "Type", "Name", "Email"]

/-! ## Commit normalization (src/index.js lines 264-283) -/

/-- `commitData.author`, the platform-linked author object (may be null). -/
structure PlatformAuthor where
  login : JSValue
deriving DecidableEq

/-- `commitData.commit.author`, the raw git identity.  The `date`
property, when present, is a valid timestamp modelled as milliseconds
since the epoch (`new Date` on such a value parses it); an absent date
gives `new Date(undefined)`, an invalid date. -/
structure GitIdentity where
  name : JSValue
  email : JSValue
  date : Option Nat
deriving DecidableEq

/-- `commitData.commit`: the raw git commit data. -/
structure CommitDetail where
  author : Option GitIdentity
  message : String
deriving DecidableEq

/-- A raw record of the commits endpoint, with the properties the
mapping reads. -/
structure RawCommit where
  sha : JSValue
  author : Option PlatformAuthor
  commit : CommitDetail
deriving DecidableEq

/-- Zero-pad a number to two digits. -/
def pad2 (n : Nat) : String :=
  if n < 10 then "0" ++ toString n else toString n

/-- Zero-pad a number to three digits. -/
def pad3 (n : Nat) : String :=
  if n < 10 then "00" ++ toString n
  else if n < 100 then "0" ++ toString n
  else toString n

/-- Convert a day count since 1970-01-01 to a civil (year, month, day)
triple, by the standard era-based algorithm used for proleptic Gregorian
calendars. -/
def civilFromDays (z0 : Nat) : Nat × Nat × Nat :=
  let z := z0 + 719468
  let era := z / 146097
  let doe := z % 146097
  let yoe := (doe - doe / 1460 + doe / 36524 - doe / 146096) / 365
  let y := yoe + era * 400
  let doy := doe - (365 * yoe + yoe / 4 - yoe / 100)
  let mp := (5 * doy + 2) / 153
  let d := doy - (153 * mp + 2) / 5 + 1
  let m := if mp < 10 then mp + 3 else mp - 9
  (if m ≤ 2 then y + 1 else y, m, d)

/-- JavaScript `new Date(t).toISOString()` for a valid timestamp `t` in
milliseconds since the epoch: the `YYYY-MM-DDTHH:MM:SS.mmmZ` rendering. -/
def jsDateToISOString (t : Nat) : String :=
  let ms := t % 1000
  let totalSeconds := t / 1000
  let s := totalSeconds % 60
  let totalMinutes := totalSeconds / 60
  let mi := totalMinutes % 60
  let totalHours := totalMinutes / 60
  let h := totalHours % 24
  let days := totalHours / 24
  match civilFromDays days with
  | (y, mo, d) =>
    toString y ++ "-" ++ pad2 mo ++ "-" ++ pad2 d ++ "T" ++ pad2 h ++ ":"
      ++ pad2 mi ++ ":" ++ pad2 s ++ "." ++ pad3 ms ++ "Z"

/-- `commitData.commit.message.split("\n")[0]` (line 282): the first line
of the commit message. -/
def firstLine (s : String) : String :=
  String.mk (s.data.takeWhile (fun c => c != '\n'))

/-- The `AuthorLogin` expression (line 278): platform login when the
record has a linked author, else the git author name behind a `Git: `
marker, else `"N/A"`. -/
def authorLoginField (cd : RawCommit) : JSValue :=
  match cd.author with
  | some a => a.login
  | none =>
    match cd.commit.author with
    | some ga => JSValue.str ("Git: " ++ jsToString ga.name)
    | none => JSValue.str "N/A"

/-- The per-commit mapping of `processAllCommits` (lines 275-283).  The
`Date` property is guarded by `commitData.commit.author` alone (line
281): when that object exists but carries no date,
`new Date(undefined).toISOString()` throws a `RangeError`, modelled as
`Except.error ()`; the whole row construction then produces no row. -/
def normalizeCommit (cd : RawCommit) : Except Unit (List (String × JSValue)) :=
  match cd.commit.author with
  | some ga =>
    match ga.date with
    | some t =>
      Except.ok
        [("SHA", cd.sha),
         ("AuthorLogin", authorLoginField cd),
         ("AuthorName", ga.name),
         ("AuthorEmail", ga.email),
         ("Date", JSValue.str (jsDateToISOString t)),
         ("Message", JSValue.str (firstLine cd.commit.message))]
    | none => Except.error ()
  | none =>
    Except.ok
      [("SHA", cd.sha),
       ("AuthorLogin", authorLoginField cd),
       ("AuthorName", JSValue.str "N/A"),
       ("AuthorEmail", JSValue.str "N/A"),
       ("Date", JSValue.str "N/A"),
       ("Message", JSValue.str (firstLine cd.commit.message))]

/-- The explicit commit header list (line 308). -/
def COMMITS_CSV_HEADERS : List String :=
  ["SHA", "AuthorLogin", "AuthorName", "AuthorEmail", "Date", "Message"]

/-- The bot filter predicate (line 267):
`commitData.author && commitData.author.login === BOT_USER_TO_FILTER`. -/
def isBot (cd : RawCommit) : Bool :=
  match cd.author with
  | some a => a.login == JSValue.str BOT_USER_TO_FILTER
  | none => false

/-- JavaScript `Array.prototype.map` with a callback that can throw:
elements are processed left to right and the first exception aborts the
whole map. -/
def mapExcept {α β : Type} (f : α → Except Unit β) : List α → Except Unit (List β)
  | [] => Except.ok []
  | a :: as =>
    match f a with
    | Except.error e => Except.error e
    | Except.ok b =>
      match mapExcept f as with
      | Except.error e => Except.error e
      | Except.ok bs => Except.ok (b :: bs)

/-! ## The harvest loop (src/index.js lines 187-209 and 257-299)

Both `processAllContributors` and `processAllCommits` run the same
`while (true)` loop: fetch a page, fold it into the accumulator, break on
a fetch rejection, an empty page or a short page.  The shared shape is
`harvestLoop`, instantiated below with each dataset's page fold.  The
trace carries ghost observation fields (`fetched`, `rawObserved`,
`excluded`) that record which page numbers a fetch was issued for, how
many raw records arrived on fetch-successful pages, and how many records
the filter excluded; they do not influence control flow.  Recursion is
bounded by explicit fuel; running out of fuel stands for a loop that has
not yet terminated. -/

/-- `perPage` (lines 184 and 253). -/
def perPage : Nat := 100

/-- How a harvest loop run ended. -/
inductive ExitKind : Type
  | finished
  | fetchError
  | foldError
  | outOfFuel
deriving DecidableEq

/-- The observable trace of a harvest loop run. -/
structure HarvestTrace (ρ : Type) where
  acc : List ρ
  fetched : List Nat
  rawObserved : Nat
  excluded : Nat
  exit : ExitKind
deriving DecidableEq

/-- The shared `while (true)` pagination loop.  `fetch` maps a page
number to a rejection or a raw record list; `foldPage` is the dataset's
per-page processing, returning the rows to append (or the exception the
fold threw) together with the number of records its filter excluded.
Exactly as in the source: a rejected fetch exits the loop with the
exception (lines 194/262), an empty page breaks (lines 205-208/295-298),
a page is folded before the length test, and a raw length below
`perPage` breaks after folding (lines 199-202/289-292). -/
def harvestLoop {α ρ : Type} (fetch : Nat → Except Unit (List α))
    (foldPage : List α → Except Unit (List ρ) × Nat) :
    Nat → Nat → List ρ → List Nat → Nat → Nat → HarvestTrace ρ
  | 0, _, acc, fetched, raw, excl =>
    ⟨acc, fetched, raw, excl, ExitKind.outOfFuel⟩
  | fuel + 1, page, acc, fetched, raw, excl =>
    match fetch page with
    | Except.error _ => ⟨acc, fetched ++ [page], raw, excl, ExitKind.fetchError⟩
    | Except.ok l =>
      if 0 < l.length then
        match foldPage l with
        | (Except.error _, k) =>
          ⟨acc, fetched ++ [page], raw + l.length, excl + k, ExitKind.foldError⟩
        | (Except.ok rows, k) =>
          if l.length < perPage then
            ⟨acc ++ rows, fetched ++ [page], raw + l.length, excl + k, ExitKind.finished⟩
          else
            harvestLoop fetch foldPage fuel (page + 1) (acc ++ rows)
              (fetched ++ [page]) (raw + l.length) (excl + k)
      else
        ⟨acc, fetched ++ [page], raw, excl, ExitKind.finished⟩

/-- The contributors page fold (line 197): the raw page is appended to
the accumulator unchanged, nothing is filtered, nothing can throw. -/
def contributorsFold (l : List RawContributor) :
    Except Unit (List RawContributor) × Nat :=
  (Except.ok l, 0)

/-- The commits page fold (lines 265-285): drop records whose linked
author is the configured bot (counting them), then map the survivors
through the row construction, which can throw. -/
def commitsFold (l : List RawCommit) :
    Except Unit (List (List (String × JSValue))) × Nat :=
  (mapExcept normalizeCommit (l.filter (fun cd => !(isBot cd))),
   l.countP (fun cd => isBot cd))

/-- The contributors harvest loop of `processAllContributors`
(lines 181-209), from page 1 with an empty accumulator. -/
def contributorsLoop (fetch : Nat → Except Unit (List RawContributor))
    (fuel : Nat) : HarvestTrace RawContributor :=
  harvestLoop fetch contributorsFold fuel 1 [] [] 0 0

/-- The commits harvest loop of `processAllCommits` (lines 250-299),
from page 1 with an empty accumulator. -/
def commitsLoop (fetch : Nat → Except Unit (List RawCommit))
    (fuel : Nat) : HarvestTrace (List (String × JSValue)) :=
  harvestLoop fetch commitsFold fuel 1 [] [] 0 0

/-- The observable outcome of one dataset's `processAll…` call.
`exported rows` means `fsPromises.writeFile` was called with the CSV
rendering of `rows`; `noRecords` is the informational no-data branch
(`console.log`, no file written); `errorCaught` is the `catch` block
(`console.error`, no file written, because the export statements sit
inside the same `try` block after the loop and are skipped when the loop
throws). -/
inductive RunOutcome (ρ : Type) : Type
  | exported (rows : List ρ)
  | noRecords
  | errorCaught
  | notTerminated
deriving DecidableEq

/-- Whether an outcome wrote the output file. -/
def fileWritten {ρ : Type} : RunOutcome ρ → Bool
  | RunOutcome.exported _ => true
  | _ => false

/-- `processAllContributors` (lines 178-242): run the loop; on normal
exit map the accumulated raw contributors to CSV rows and export them
when there is at least one, else report informationally; when the loop
threw (fetch rejection), the `catch` block runs and the export is
skipped. -/
def processAllContributorsModel
    (fetch : Nat → Except Unit (List RawContributor)) (fuel : Nat) :
    RunOutcome (List (String × JSValue)) :=
  match (contributorsLoop fetch fuel).exit with
  | ExitKind.finished =>
    if 0 < (contributorsLoop fetch fuel).acc.length then
      RunOutcome.exported ((contributorsLoop fetch fuel).acc.map normalizeContributor)
    else RunOutcome.noRecords
  | ExitKind.outOfFuel => RunOutcome.notTerminated
  | ExitKind.fetchError => RunOutcome.errorCaught
  | ExitKind.foldError => RunOutcome.errorCaught

/-- `processAllCommits` (lines 247-332): same shape; the accumulator
already holds normalized rows, and a thrown row construction also lands
in the `catch` block. -/
def processAllCommitsModel
    (fetch : Nat → Except Unit (List RawCommit)) (fuel : Nat) :
    RunOutcome (List (String × JSValue)) :=
  match (commitsLoop fetch fuel).exit with
  | ExitKind.finished =>
    if 0 < (commitsLoop fetch fuel).acc.length then
      RunOutcome.exported (commitsLoop fetch fuel).acc
    else RunOutcome.noRecords
  | ExitKind.outOfFuel => RunOutcome.notTerminated
  | ExitKind.fetchError => RunOutcome.errorCaught
  | ExitKind.foldError => RunOutcome.errorCaught

/-- `main` (lines 334-353): both harvests run unconditionally in
sequence; each catches its own errors, so the commits outcome never
depends on the contributors outcome. -/
def mainModel (fetchC : Nat → Except Unit (List RawContributor))
    (fetchK : Nat → Except Unit (List RawCommit)) (fuel : Nat) :
    RunOutcome (List (String × JSValue)) × RunOutcome (List (String × JSValue)) :=
  (processAllContributorsModel fetchC fuel, processAllCommitsModel fetchK fuel)

/-! ## Concrete records for witnesses and counterexamples -/

/-- The spec's anonymous-contributor scenario:
`{login: null, type: "Anonymous", name: "Jane Doe"}`. -/
def janeDoe : RawContributor :=
  { login := JSValue.null, type := JSValue.str "Anonymous",
    name := JSValue.str "Jane Doe", email := JSValue.str "jane@example.com",
    html_url := JSValue.undef, contributions := JSValue.num 5 }

/-- A commit with no platform author and no git author object. -/
def simpleCommit : RawCommit :=
  { sha := JSValue.str "s1", author := none,
    commit := { author := none, message := "" } }

/-- Row produced by `normalizeCommit simpleCommit`. -/
def simpleCommitRow : List (String × JSValue) :=
  [("SHA", JSValue.str "s1"), ("AuthorLogin", JSValue.str "N/A"),
   ("AuthorName", JSValue.str "N/A"), ("AuthorEmail", JSValue.str "N/A"),
   ("Date", JSValue.str "N/A"), ("Message", JSValue.str "")]

/-- A commit whose git author object exists but carries no date: the
`Date` cell construction calls `new Date(undefined).toISOString()`. -/
def noDateCommit : RawCommit :=
  { sha := JSValue.str "bad", author := none,
    commit := { author := some { name := JSValue.str "J. Smith",
                                 email := JSValue.str "js@example.com",
                                 date := none },
                message := "m" } }

/-- The git identity of `noDateCommit`. -/
def noDateIdentity : GitIdentity :=
  { name := JSValue.str "J. Smith", email := JSValue.str "js@example.com",
    date := none }

/-- A second date-free commit, used to apply the date-normalization
theorem at a concrete input. -/
def noDateCommit2 : RawCommit :=
  { sha := JSValue.str "bad2", author := none,
    commit := { author := some noDateIdentity, message := "m2" } }

/-- A commit by the configured bot identity. -/
def botCommit : RawCommit :=
  { sha := JSValue.str "b1",
    author := some { login := JSValue.str "dependabot[bot]" },
    commit := { author := some { name := JSValue.str "dependabot",
                                 email := JSValue.str "support@dependabot.com",
                                 date := some 0 },
                message := "bump deps" } }

/-- A full page (100 records) of unproblematic commits. -/
def fullSimplePage : List RawCommit := List.replicate perPage simpleCommit

/-- Fetch source whose first page is full and whose second fetch
rejects. -/
def cexFetchC2 : Nat → Except Unit (List RawCommit) :=
  fun p => if p = 1 then Except.ok fullSimplePage else Except.error ()

/-- A full page whose last record throws during row construction. -/
def fullBadPage : List RawCommit :=
  List.replicate 99 simpleCommit ++ [noDateCommit]

/-- Fetch source whose first page is `fullBadPage`. -/
def cexFetchC4 : Nat → Except Unit (List RawCommit) :=
  fun p => if p = 1 then Except.ok fullBadPage else Except.ok []

/-- Fetch source whose first page is the single date-free commit. -/
def cexFetchC7 : Nat → Except Unit (List RawCommit) :=
  fun p => if p = 1 then Except.ok [noDateCommit] else Except.ok []

/-- A field value containing a comma, a quote and a newline. -/
def juicyField : List Char := ['a', ',', 'b', '"', 'c', '\n', 'd']

deriving instance DecidableEq for Except

/-! ## Sanity checks of the embedding on concrete values -/

example : jsDateToISOString 0 = "1970-01-01T00:00:00.000Z" := by decide

example : jsDateToISOString 1700000000000 = "2023-11-14T22:13:20.000Z" := by decide

example : normalizeCommit simpleCommit = Except.ok simpleCommitRow := by decide

example : escapeCsvValue (JSValue.str "a,b") = "\"a,b\"" := by decide

/-! ## Claim C1 (code bug)

The spec requires `Login = "Anonymous (Jane Doe)"` for
`{login: null, type: "Anonymous", name: "Jane Doe"}`.  Line 216 of the
source compares `c.type === "Anonymous:"` — with a stray trailing
colon — although the comment directly above it (line 215) documents the
anonymous type as `"Anonymous"` and the request adds `anon=1` precisely
to receive such records.  The record therefore falls through to
`"N/A"`. -/

/-- C1: at the spec's own scenario record the code produces
`Login = "N/A"`; changing the type to the misspelled literal
`"Anonymous:"` is what actually triggers the anonymous branch,
exhibiting the typo. -/
theorem anonymous_typo_login :
    getField (normalizeContributor janeDoe) "Login" = JSValue.str "N/A"
    ∧ getField (normalizeContributor { janeDoe with type := JSValue.str "Anonymous:" }) "Login"
        = JSValue.str "Anonymous (Jane Doe)" := by
  constructor
  · rfl
  · rfl

/-! ## Claim C5 (confirmed) -/

/-- C5: the pause check returns true exactly when the last-observed
remaining quota is a number strictly below the threshold (the `Infinity`
sentinel never pauses); whenever a pause actually completes the state's
`remaining` is reset to the sentinel; and a response carrying both
rate-limit headers fully overwrites the state. -/
theorem rate_limit_pause_spec (info : RateLimitInfo) (now : Int) (r t : Nat) :
    (shouldPause info = true ↔
      ∃ n, info.remaining = some n ∧ n < RATE_LIMIT_PAUSE_THRESHOLD)
    ∧ ((checkAndHandleRateLimits now info).2 = true →
        (checkAndHandleRateLimits now info).1.remaining = none)
    ∧ updateRateLimitFromHeaders (some r) (some t) info
        = { remaining := some r, resetTimestamp := t } := by
  refine ⟨?_, ?_, ?_⟩
  · cases h : info.remaining with
    | none => simp [shouldPause, h]
    | some n => simp [shouldPause, h]
  · intro hp
    unfold checkAndHandleRateLimits at hp ⊢
    by_cases hs : shouldPause info = true
    · by_cases hw : 0 < (info.resetTimestamp : Int) * 1000 - now + 10000
      · simp [hs, hw]
      · simp [hs, hw] at hp
    · simp [hs] at hp
  · rfl

/-- Witness for C5 at a concrete state: remaining 5 with reset time
1000 s at clock 0 pauses and resets to the sentinel, and a response with
headers 4999/77 overwrites everything. -/
theorem rate_limit_pause_spec_witness :
    (checkAndHandleRateLimits 0 ⟨some 5, 1000⟩).1.remaining = none
    ∧ updateRateLimitFromHeaders (some 4999) (some 77) ⟨none, 0⟩
        = ⟨some 4999, 77⟩ :=
  ⟨(rate_limit_pause_spec ⟨some 5, 1000⟩ 0 4999 77).2.1 (by decide),
   (rate_limit_pause_spec ⟨none, 0⟩ 0 4999 77).2.2⟩

/-! ## Claim C10 (confirmed) -/

/-- C10: the CSV converter's cell rendering passes `row[header] || ""`
to the escaper, so every falsy cell value — a missing property,
`null`, `0`, `false` or the empty string — renders as the empty
string. -/
theorem falsy_cell_empty (row : List (String × JSValue)) (h : String)
    (hfalsy : truthy (getField row h) = false) :
    csvCell row h = ""
    ∧ truthy (JSValue.num 0) = false
    ∧ truthy (JSValue.bool false) = false
    ∧ truthy (JSValue.str "") = false
    ∧ truthy JSValue.null = false
    ∧ truthy JSValue.undef = false := by
  refine ⟨?_, by decide, by decide, by decide, by decide, by decide⟩
  have hor : jsOr (getField row h) (JSValue.str "") = JSValue.str "" := by
    unfold jsOr
    rw [hfalsy]
    simp
  unfold csvCell
  rw [hor]
  rfl

/-- Witness for C10 at the falsy number `0`. -/
theorem falsy_cell_empty_witness :
    csvCell [("Contributions", JSValue.num 0)] "Contributions" = "" :=
  (falsy_cell_empty [("Contributions", JSValue.num 0)] "Contributions"
    (by decide)).1

/-! ## Claim C3 (corrected)

The claim states the `Date` field is `"N/A"` whenever no raw author date
exists, "in particular, a record whose commit.author exists but carries
no date yields N/A, not an exception".  Line 281 guards on
`commitData.commit.author` alone, so such a record reaches
`new Date(undefined).toISOString()`, which throws. -/

/-- C3 counterexample: on a record whose `commit.author` exists but
carries no date, the row construction throws instead of producing a row
with `Date = "N/A"`. -/
theorem missing_date_throws_cex :
    normalizeCommit noDateCommit = Except.error () := by
  rfl

/-- C3 (amended): `Date` is the reformatted ISO-8601 UTC timestamp when
`commit.author` exists and carries a date, `"N/A"` when `commit.author`
is absent, and a record whose `commit.author` exists but carries no date
throws (the exception is caught at the dataset boundary). -/
theorem date_field_normalization (cd : RawCommit) (ga : GitIdentity) (t : Nat) :
    (cd.commit.author = none →
      ∃ row, normalizeCommit cd = Except.ok row
        ∧ getField row "Date" = JSValue.str "N/A")
    ∧ (cd.commit.author = some ga → ga.date = some t →
      ∃ row, normalizeCommit cd = Except.ok row
        ∧ getField row "Date" = JSValue.str (jsDateToISOString t))
    ∧ (cd.commit.author = some ga → ga.date = none →
      normalizeCommit cd = Except.error ()) := by
  obtain ⟨sha, auth, ⟨cauth, msg⟩⟩ := cd
  obtain ⟨gname, gemail, gdate⟩ := ga
  refine ⟨?_, ?_, ?_⟩
  · intro hc
    change cauth = none at hc
    subst hc
    exact ⟨_, rfl, rfl⟩
  · intro hc ht
    change cauth = some ⟨gname, gemail, gdate⟩ at hc
    subst hc
    change gdate = some t at ht
    subst ht
    exact ⟨_, rfl, rfl⟩
  · intro hc ht
    change cauth = some ⟨gname, gemail, gdate⟩ at hc
    subst hc
    change gdate = none at ht
    subst ht
    rfl

/-- Witness for C3's amended theorem: the date-free record
`noDateCommit2` throws. -/
theorem date_field_normalization_witness :
    normalizeCommit noDateCommit2 = Except.error () :=
  (date_field_normalization noDateCommit2 noDateIdentity 0).2.2 rfl rfl

/-! ## Claim C9 (confirmed) -/

/-- C9: when a harvest loop exits normally with an empty accumulator
(first page empty, or every record filtered out), the run reports the
informational no-data branch and no file write is attempted, for both
datasets. -/
theorem empty_accumulator_no_write
    (fetchC : Nat → Except Unit (List RawContributor))
    (fetchK : Nat → Except Unit (List RawCommit)) (fuel : Nat) :
    ((contributorsLoop fetchC fuel).exit = ExitKind.finished →
      (contributorsLoop fetchC fuel).acc = [] →
      processAllContributorsModel fetchC fuel = RunOutcome.noRecords)
    ∧ ((commitsLoop fetchK fuel).exit = ExitKind.finished →
      (commitsLoop fetchK fuel).acc = [] →
      processAllCommitsModel fetchK fuel = RunOutcome.noRecords) := by
  constructor
  · intro he ha
    unfold processAllContributorsModel
    simp [he, ha]
  · intro he ha
    unfold processAllCommitsModel
    simp [he, ha]

/-- Witness for C9: a first page with zero contributors ends in the
informational branch with no file written. -/
theorem empty_accumulator_no_write_witness :
    processAllContributorsModel (fun _ => Except.ok []) 1 = RunOutcome.noRecords :=
  (empty_accumulator_no_write (fun _ => Except.ok []) (fun _ => Except.ok []) 1).1
    (by decide) (by decide)

/-! ## Claim C2 (corrected)

The claim (and spec section 4.2) says a failed page fetch terminates the
dataset's harvest "leaving already-accumulated records intact and
proceeding to export whatever was collected".  In the source the export
block (lines 211-229 and 301-313) sits inside the same `try` block as
the loop, after it; a rejected fetch makes `await` throw, control jumps
to `catch`, and the export statements are skipped entirely. -/

/-- C2 counterexample: page 1 delivers 100 commits, the page-2 fetch
rejects; the loop exits with the fetch error holding 100 accumulated
rows, yet no file write is attempted. -/
theorem fetch_failure_no_export_cex :
    (commitsLoop cexFetchC2 3).acc.length = 100
    ∧ (commitsLoop cexFetchC2 3).exit = ExitKind.fetchError
    ∧ fileWritten (processAllCommitsModel cexFetchC2 3) = false := by
  refine ⟨by decide, by decide, by decide⟩

/-- C2 (amended): a failed page fetch terminates the dataset's harvest
through the dataset-level `catch`; the export step is skipped, so the
accumulated records are never exported and no file is written for that
dataset, while the other dataset's harvest still runs. -/
theorem fetch_failure_skips_export
    (fetchC : Nat → Except Unit (List RawContributor))
    (fetchK : Nat → Except Unit (List RawCommit)) (fuel : Nat) :
    ((contributorsLoop fetchC fuel).exit = ExitKind.fetchError →
      processAllContributorsModel fetchC fuel = RunOutcome.errorCaught)
    ∧ ((commitsLoop fetchK fuel).exit = ExitKind.fetchError →
      processAllCommitsModel fetchK fuel = RunOutcome.errorCaught)
    ∧ (mainModel fetchC fetchK fuel).2 = processAllCommitsModel fetchK fuel := by
  refine ⟨?_, ?_, rfl⟩
  · intro he
    unfold processAllContributorsModel
    simp [he]
  · intro he
    unfold processAllCommitsModel
    simp [he]

/-- Witness for C2's amended theorem at the concrete failing run. -/
theorem fetch_failure_skips_export_witness :
    processAllCommitsModel cexFetchC2 3 = RunOutcome.errorCaught :=
  (fetch_failure_skips_export (fun _ => Except.ok []) cexFetchC2 3).2.1 (by decide)

/-! ## Harvest loop lemmas -/

/-- A throwing map that returns normally processed every element. -/
theorem mapExcept_ok_length {α β : Type} (f : α → Except Unit β) :
    ∀ (l : List α) (bs : List β), mapExcept f l = Except.ok bs → bs.length = l.length := by
  intro l
  induction l with
  | nil =>
    intro bs h
    simp only [mapExcept] at h
    cases h
    rfl
  | cons a as ih =>
    intro bs h
    simp only [mapExcept] at h
    cases hfa : f a with
    | error e =>
      rw [hfa] at h
      exact Except.noConfusion h
    | ok b =>
      rw [hfa] at h
      cases hrec : mapExcept f as with
      | error e =>
        rw [hrec] at h
        exact Except.noConfusion h
      | ok bs2 =>
        rw [hrec] at h
        cases h
        simp [ih bs2 hrec]

/-- Keeping the records failing a predicate and counting those passing
it partitions a list. -/
theorem filter_not_length_add_countP {α : Type} (p : α → Bool) (l : List α) :
    (l.filter (fun a => !(p a))).length + l.countP p = l.length := by
  induction l with
  | nil => rfl
  | cons a as ih =>
    by_cases h : p a
    · simp only [List.filter, List.countP_cons, h]
      simp
      omega
    · simp only [List.filter, List.countP_cons]
      simp [h]
      omega

/-- Whatever happens after it, a loop entered with fuel left first issues
the fetch for its current page. -/
theorem harvestLoop_fetched_extends {α ρ : Type}
    (fetch : Nat → Except Unit (List α))
    (foldPage : List α → Except Unit (List ρ) × Nat) :
    ∀ (fuel page : Nat) (acc : List ρ) (fetched : List Nat) (raw excl : Nat),
      ∃ rest : List Nat,
        (harvestLoop fetch foldPage (fuel + 1) page acc fetched raw excl).fetched
          = fetched ++ page :: rest := by
  intro fuel
  induction fuel with
  | zero =>
    intro page acc fetched raw excl
    cases hf : fetch page with
    | error e => exact ⟨[], by simp [harvestLoop, hf]⟩
    | ok l =>
      by_cases h0 : 0 < l.length
      · rcases hq : foldPage l with ⟨res, k⟩
        cases res with
        | error e => exact ⟨[], by simp [harvestLoop, hf, h0, hq]⟩
        | ok rows =>
          by_cases hs : l.length < perPage
          · exact ⟨[], by simp [harvestLoop, hf, h0, hq, hs]⟩
          · exact ⟨[], by simp [harvestLoop, hf, h0, hq, hs]⟩
      · exact ⟨[], by simp [harvestLoop, hf, h0]⟩
  | succ n ih =>
    intro page acc fetched raw excl
    cases hf : fetch page with
    | error e => exact ⟨[], by simp [harvestLoop, hf]⟩
    | ok l =>
      by_cases h0 : 0 < l.length
      · rcases hq : foldPage l with ⟨res, k⟩
        cases res with
        | error e => exact ⟨[], by simp [harvestLoop, hf, h0, hq]⟩
        | ok rows =>
          by_cases hs : l.length < perPage
          · exact ⟨[], by simp [harvestLoop, hf, h0, hq, hs]⟩
          · obtain ⟨rest, hrest⟩ :=
              ih (page + 1) (acc ++ rows) (fetched ++ [page]) (raw + l.length) (excl + k)
            refine ⟨(page + 1) :: rest, ?_⟩
            have heq : harvestLoop fetch foldPage (n + 1 + 1) page acc fetched raw excl
                = harvestLoop fetch foldPage (n + 1) (page + 1) (acc ++ rows)
                    (fetched ++ [page]) (raw + l.length) (excl + k) := by
              simp [harvestLoop, hf, h0, hq, hs]
            rw [heq, hrest]
            simp
      · exact ⟨[], by simp [harvestLoop, hf, h0]⟩

/-- After folding a page shorter than `perPage`, no further fetch is
issued. -/
theorem harvestLoop_short_page {α ρ : Type}
    (fetch : Nat → Except Unit (List α))
    (foldPage : List α → Except Unit (List ρ) × Nat)
    (fuel page : Nat) (acc : List ρ) (fetched : List Nat) (raw excl : Nat)
    (l : List α) (hf : fetch page = Except.ok l) (hshort : l.length < perPage) :
    (harvestLoop fetch foldPage (fuel + 1) page acc fetched raw excl).fetched
      = fetched ++ [page] := by
  by_cases h0 : 0 < l.length
  · rcases hq : foldPage l with ⟨res, k⟩
    cases res with
    | error e => simp [harvestLoop, hf, h0, hq]
    | ok rows => simp [harvestLoop, hf, h0, hq, hshort]
  · simp [harvestLoop, hf, h0]

/-- After successfully folding a page of raw length at least `perPage`,
the fetch for the next page is issued. -/
theorem harvestLoop_full_page {α ρ : Type}
    (fetch : Nat → Except Unit (List α))
    (foldPage : List α → Except Unit (List ρ) × Nat)
    (fuel page : Nat) (acc : List ρ) (fetched : List Nat) (raw excl : Nat)
    (l : List α) (rows : List ρ)
    (hf : fetch page = Except.ok l) (hlen : perPage ≤ l.length)
    (hfold : (foldPage l).1 = Except.ok rows) :
    ∃ rest, (harvestLoop fetch foldPage (fuel + 2) page acc fetched raw excl).fetched
      = fetched ++ page :: (page + 1) :: rest := by
  rcases hq : foldPage l with ⟨res, k⟩
  rw [hq] at hfold
  simp only at hfold
  subst hfold
  have h0 : 0 < l.length := Nat.lt_of_lt_of_le (by decide) hlen
  have hns : ¬ l.length < perPage := Nat.not_lt.mpr hlen
  have heq : harvestLoop fetch foldPage (fuel + 2) page acc fetched raw excl
      = harvestLoop fetch foldPage (fuel + 1) (page + 1) (acc ++ rows)
          (fetched ++ [page]) (raw + l.length) (excl + k) := by
    simp [harvestLoop, hf, h0, hq, hns]
  obtain ⟨rest, hrest⟩ := harvestLoop_fetched_extends fetch foldPage fuel (page + 1)
    (acc ++ rows) (fetched ++ [page]) (raw + l.length) (excl + k)
  refine ⟨rest, ?_⟩
  rw [heq, hrest]
  simp

/-- The loop's accumulator size plus its exclusion tally equals the raw
records observed, as long as no page fold threw, provided every
successful fold accounts for each raw record either as a row or as an
exclusion. -/
theorem harvestLoop_size_invariant {α ρ : Type}
    (fetch : Nat → Except Unit (List α))
    (foldPage : List α → Except Unit (List ρ) × Nat)
    (hfold : ∀ l rows, (foldPage l).1 = Except.ok rows →
      rows.length + (foldPage l).2 = l.length) :
    ∀ (fuel page : Nat) (acc : List ρ) (fetched : List Nat) (raw excl : Nat),
      acc.length + excl = raw →
      (harvestLoop fetch foldPage fuel page acc fetched raw excl).exit ≠ ExitKind.foldError →
      (harvestLoop fetch foldPage fuel page acc fetched raw excl).acc.length
        + (harvestLoop fetch foldPage fuel page acc fetched raw excl).excluded
        = (harvestLoop fetch foldPage fuel page acc fetched raw excl).rawObserved := by
  intro fuel
  induction fuel with
  | zero =>
    intro page acc fetched raw excl hinv _
    simpa [harvestLoop] using hinv
  | succ n ih =>
    intro page acc fetched raw excl hinv hexit
    cases hf : fetch page with
    | error e => simpa [harvestLoop, hf] using hinv
    | ok l =>
      by_cases h0 : 0 < l.length
      · rcases hq : foldPage l with ⟨res, k⟩
        cases res with
        | error e =>
          exfalso
          apply hexit
          simp [harvestLoop, hf, h0, hq]
        | ok rows =>
          have hk : rows.length + k = l.length := by
            have h1 := hfold l rows (by rw [hq])
            rw [hq] at h1
            exact h1
          by_cases hs : l.length < perPage
          · simp only [harvestLoop, hf, h0, hq, hs]
            simp [List.length_append]
            omega
          · have heq : harvestLoop fetch foldPage (n + 1) page acc fetched raw excl
                = harvestLoop fetch foldPage n (page + 1) (acc ++ rows)
                    (fetched ++ [page]) (raw + l.length) (excl + k) := by
              simp [harvestLoop, hf, h0, hq, hs]
            rw [heq] at hexit ⊢
            refine ih (page + 1) (acc ++ rows) (fetched ++ [page])
              (raw + l.length) (excl + k) ?_ hexit
            simp [List.length_append]
            omega
      · simpa [harvestLoop, hf, h0] using hinv

/-- A loop whose page fold cannot throw never exits with a fold error. -/
theorem harvestLoop_no_foldError {α ρ : Type}
    (fetch : Nat → Except Unit (List α))
    (foldPage : List α → Except Unit (List ρ) × Nat)
    (hok : ∀ l, ∃ rows, (foldPage l).1 = Except.ok rows) :
    ∀ (fuel page : Nat) (acc : List ρ) (fetched : List Nat) (raw excl : Nat),
      (harvestLoop fetch foldPage fuel page acc fetched raw excl).exit
        ≠ ExitKind.foldError := by
  intro fuel
  induction fuel with
  | zero =>
    intro page acc fetched raw excl
    simp [harvestLoop]
  | succ n ih =>
    intro page acc fetched raw excl
    cases hf : fetch page with
    | error e => simp [harvestLoop, hf]
    | ok l =>
      by_cases h0 : 0 < l.length
      · obtain ⟨rows, hrows⟩ := hok l
        rcases hq : foldPage l with ⟨res, k⟩
        rw [hq] at hrows
        simp only at hrows
        subst hrows
        by_cases hs : l.length < perPage
        · simp [harvestLoop, hf, h0, hq, hs]
        · have heq : harvestLoop fetch foldPage (n + 1) page acc fetched raw excl
              = harvestLoop fetch foldPage n (page + 1) (acc ++ rows)
                  (fetched ++ [page]) (raw + l.length) (excl + k) := by
            simp [harvestLoop, hf, h0, hq, hs]
          rw [heq]
          exact ih (page + 1) (acc ++ rows) (fetched ++ [page])
            (raw + l.length) (excl + k)
      · simp [harvestLoop, hf, h0]

/-- A loop whose page fold excludes nothing leaves the exclusion tally
at its initial value. -/
theorem harvestLoop_excluded_const {α ρ : Type}
    (fetch : Nat → Except Unit (List α))
    (foldPage : List α → Except Unit (List ρ) × Nat)
    (hzero : ∀ l, (foldPage l).2 = 0) :
    ∀ (fuel page : Nat) (acc : List ρ) (fetched : List Nat) (raw excl : Nat),
      (harvestLoop fetch foldPage fuel page acc fetched raw excl).excluded = excl := by
  intro fuel
  induction fuel with
  | zero =>
    intro page acc fetched raw excl
    simp [harvestLoop]
  | succ n ih =>
    intro page acc fetched raw excl
    cases hf : fetch page with
    | error e => simp [harvestLoop, hf]
    | ok l =>
      by_cases h0 : 0 < l.length
      · rcases hq : foldPage l with ⟨res, k⟩
        have hk : k = 0 := by
          have := hzero l
          rw [hq] at this
          exact this
        subst hk
        cases res with
        | error e => simp [harvestLoop, hf, h0, hq]
        | ok rows =>
          by_cases hs : l.length < perPage
          · simp [harvestLoop, hf, h0, hq, hs]
          · have heq : harvestLoop fetch foldPage (n + 1) page acc fetched raw excl
                = harvestLoop fetch foldPage n (page + 1) (acc ++ rows)
                    (fetched ++ [page]) (raw + l.length) (excl + 0) := by
              simp [harvestLoop, hf, h0, hq, hs]
            rw [heq]
            exact ih (page + 1) (acc ++ rows) (fetched ++ [page]) (raw + l.length) (excl + 0)
      · simp [harvestLoop, hf, h0]

/-! ## Claim C4 (corrected)

The claim says the harvester "keeps fetching the next page after every
page of exactly the configured page size".  A full page whose folding
throws (a record with a git author object but no date, line 281) ends
the commits harvest with no further fetch, so the full-page clause only
holds for pages whose folding raises no exception.  The short-page and
empty-page clauses hold unconditionally. -/

/-- C4 counterexample: a page of exactly 100 raw commits whose last
record throws during row construction; the loop stops after page 1 and
never issues a second fetch. -/
theorem full_page_fold_error_stops_cex :
    fullBadPage.length = perPage
    ∧ (commitsLoop cexFetchC4 3).fetched = [1]
    ∧ (commitsLoop cexFetchC4 3).exit = ExitKind.foldError := by
  refine ⟨by decide, by decide, by decide⟩

/-- C4 (amended): after folding a page shorter than the configured page
size no further fetch is issued; after a page of exactly the page size
whose folding raises no exception the next page's fetch is issued; an
empty page ends the harvest.  Stated for the shared loop, hence for both
datasets. -/
theorem pagination_termination {α ρ : Type}
    (fetch : Nat → Except Unit (List α))
    (foldPage : List α → Except Unit (List ρ) × Nat)
    (fuel page : Nat) (acc : List ρ) (fetched : List Nat) (raw excl : Nat)
    (l : List α) (rows : List ρ) (hf : fetch page = Except.ok l) :
    (l.length < perPage →
      (harvestLoop fetch foldPage (fuel + 1) page acc fetched raw excl).fetched
        = fetched ++ [page])
    ∧ (l.length = perPage → (foldPage l).1 = Except.ok rows →
      ∃ rest, (harvestLoop fetch foldPage (fuel + 2) page acc fetched raw excl).fetched
        = fetched ++ page :: (page + 1) :: rest)
    ∧ (l = [] →
      (harvestLoop fetch foldPage (fuel + 1) page acc fetched raw excl).exit
          = ExitKind.finished
      ∧ (harvestLoop fetch foldPage (fuel + 1) page acc fetched raw excl).fetched
          = fetched ++ [page]) := by
  refine ⟨?_, ?_, ?_⟩
  · intro hlt
    exact harvestLoop_short_page fetch foldPage fuel page acc fetched raw excl l hf hlt
  · intro hlen hfold
    exact harvestLoop_full_page fetch foldPage fuel page acc fetched raw excl l rows hf
      (le_of_eq hlen.symm) hfold
  · intro hnil
    subst hnil
    constructor
    · simp [harvestLoop, hf]
    · simp [harvestLoop, hf]

/-- Witness for C4's amended theorem: a one-record contributor page is
short, so the loop fetches only page 1. -/
theorem pagination_termination_witness :
    (harvestLoop (fun _ => Except.ok [janeDoe]) contributorsFold (0 + 1) 1 [] [] 0 0).fetched
      = [] ++ [1] :=
  (pagination_termination (fun _ => Except.ok [janeDoe]) contributorsFold 0 1 [] [] 0 0
    [janeDoe] [] rfl).1 (by decide)

/-! ## Claim C6 (confirmed) -/

/-- C6: on any fetched commits page, the exclusion tally counts exactly
the records whose linked author login is the configured bot, the rows a
successful fold appends are in bijection with the non-bot records (each
bot record is excluded), and whether the next page's fetch is issued is
equivalent to a condition on the raw page length alone, independent of
how many records survived the filter. -/
theorem bot_filter_and_raw_length_decision
    (l : List RawCommit) (rows : List (List (String × JSValue)))
    (fetch : Nat → Except Unit (List RawCommit))
    (fuel page : Nat) (acc : List (List (String × JSValue)))
    (fetched : List Nat) (raw excl : Nat)
    (hf : fetch page = Except.ok l)
    (hfold : (commitsFold l).1 = Except.ok rows)
    (_hpos : 0 < l.length) :
    (commitsFold l).2 = l.countP (fun cd => isBot cd)
    ∧ rows.length + l.countP (fun cd => isBot cd) = l.length
    ∧ ((∃ rest, (harvestLoop fetch commitsFold (fuel + 2) page acc fetched raw excl).fetched
          = fetched ++ page :: (page + 1) :: rest) ↔ perPage ≤ l.length) := by
  refine ⟨rfl, ?_, ?_⟩
  · have hlen : rows.length = (l.filter (fun cd => !(isBot cd))).length :=
      mapExcept_ok_length normalizeCommit (l.filter (fun cd => !(isBot cd))) rows hfold
    rw [hlen]
    exact filter_not_length_add_countP (fun cd => isBot cd) l
  · constructor
    · rintro ⟨rest, hrest⟩
      by_contra hlt
      rw [Nat.not_le] at hlt
      have hshort := harvestLoop_short_page fetch commitsFold (fuel + 1) page acc fetched
        raw excl l hf hlt
      rw [hshort] at hrest
      have hcontra := congrArg List.length hrest
      simp at hcontra
    · intro hge
      exact harvestLoop_full_page fetch commitsFold fuel page acc fetched raw excl l rows
        hf hge hfold

/-- Witness for C6: a page holding one bot commit and one ordinary
commit; the surviving single row plus the tally of one bot record covers
the raw page of two. -/
theorem bot_filter_and_raw_length_decision_witness :
    ([simpleCommitRow] : List (List (String × JSValue))).length
      + List.countP (fun cd => isBot cd) [botCommit, simpleCommit]
      = ([botCommit, simpleCommit] : List RawCommit).length :=
  (bot_filter_and_raw_length_decision [botCommit, simpleCommit] [simpleCommitRow]
    (fun _ => Except.ok [botCommit, simpleCommit]) 0 1 [] [] 0 0
    rfl (by decide) (by decide)).2.1

/-! ## Claim C7 (corrected)

The claim's invariant counts raw records "across all successfully
fetched pages".  When the commits row construction throws mid-page, the
page was fetched successfully and its bot records were already counted,
but none of its surviving records reach the accumulator, so the equation
fails for runs that terminate through a fold exception.  It holds for
all other terminating runs, and unconditionally for contributors. -/

/-- C7 counterexample: a successfully fetched page whose single record
throws during row construction terminates the run with an empty
accumulator, one observed raw record and no exclusion, violating the
claimed equation. -/
theorem invariant_fold_error_cex :
    (commitsLoop cexFetchC7 2).exit = ExitKind.foldError
    ∧ (commitsLoop cexFetchC7 2).acc.length = 0
    ∧ (commitsLoop cexFetchC7 2).rawObserved = 1
    ∧ (commitsLoop cexFetchC7 2).excluded = 0
    ∧ (commitsLoop cexFetchC7 2).acc.length
        ≠ (commitsLoop cexFetchC7 2).rawObserved - (commitsLoop cexFetchC7 2).excluded := by
  refine ⟨by decide, by decide, by decide, by decide, by decide⟩

/-- C7 (amended): for every terminating harvest run that did not end in
a row-construction exception, the accumulator size equals the raw
records observed on fetch-successful pages minus the filter's
exclusions; the contributors dataset excludes nothing and satisfies the
equation unconditionally. -/
theorem accumulator_size_invariant
    (fetchC : Nat → Except Unit (List RawContributor))
    (fetchK : Nat → Except Unit (List RawCommit)) (fuel : Nat) :
    ((contributorsLoop fetchC fuel).acc.length + (contributorsLoop fetchC fuel).excluded
      = (contributorsLoop fetchC fuel).rawObserved)
    ∧ (contributorsLoop fetchC fuel).excluded = 0
    ∧ ((commitsLoop fetchK fuel).exit ≠ ExitKind.foldError →
      (commitsLoop fetchK fuel).acc.length + (commitsLoop fetchK fuel).excluded
        = (commitsLoop fetchK fuel).rawObserved) := by
  refine ⟨?_, ?_, ?_⟩
  · refine harvestLoop_size_invariant fetchC contributorsFold ?_ fuel 1 [] [] 0 0 rfl
      (harvestLoop_no_foldError fetchC contributorsFold ?_ fuel 1 [] [] 0 0)
    · intro l rows h
      simp only [contributorsFold] at h ⊢
      cases h
      simp
    · intro l
      exact ⟨l, rfl⟩
  · exact harvestLoop_excluded_const fetchC contributorsFold (fun _ => rfl) fuel 1 [] [] 0 0
  · intro hexit
    refine harvestLoop_size_invariant fetchK commitsFold ?_ fuel 1 [] [] 0 0 rfl hexit
    intro l rows h
    have hlen : rows.length = (l.filter (fun cd => !(isBot cd))).length :=
      mapExcept_ok_length normalizeCommit (l.filter (fun cd => !(isBot cd))) rows h
    simp only [commitsFold]
    rw [hlen]
    exact filter_not_length_add_countP (fun cd => isBot cd) l

/-- Witness for C7's amended theorem on concrete one-page runs of both
datasets. -/
theorem accumulator_size_invariant_witness :
    ((contributorsLoop (fun _ => Except.ok [janeDoe]) 1).acc.length
      + (contributorsLoop (fun _ => Except.ok [janeDoe]) 1).excluded
      = (contributorsLoop (fun _ => Except.ok [janeDoe]) 1).rawObserved)
    ∧ ((commitsLoop (fun _ => Except.ok [botCommit, simpleCommit]) 1).acc.length
      + (commitsLoop (fun _ => Except.ok [botCommit, simpleCommit]) 1).excluded
      = (commitsLoop (fun _ => Except.ok [botCommit, simpleCommit]) 1).rawObserved) :=
  ⟨(accumulator_size_invariant (fun _ => Except.ok [janeDoe])
      (fun _ => Except.ok [botCommit, simpleCommit]) 1).1,
   (accumulator_size_invariant (fun _ => Except.ok [janeDoe])
      (fun _ => Except.ok [botCommit, simpleCommit]) 1).2.2 (by decide)⟩

/-! ## Claim C8 (confirmed) -/

/-- Decoding the quote-doubled body followed by the closing quote
recovers the original field. -/
theorem parseQuotedBody_doubleQuotes (s : List Char) :
    parseQuotedBody (doubleQuotes s ++ ['"']) = some s := by
  induction s with
  | nil => rfl
  | cons c cs ih =>
    by_cases hc : c = '"'
    · subst hc
      simp [doubleQuotes, parseQuotedBody, ih]
    · simp only [doubleQuotes, if_neg hc, List.cons_append]
      rw [parseQuotedBody.eq_def]
      simp [hc, ih]

/-- C8: the encoder wraps a field in quotes (with embedded quotes
doubled) exactly when the field contains a comma, a newline or a double
quote, and decoding any encoded field with a standard CSV field parser
reproduces the original field exactly. -/
theorem csv_quoting_roundtrip (s : List Char) :
    ((∃ t, escapeCsvChars s = '"' :: (t ++ ['"'])) ↔
      (',' ∈ s ∨ '\n' ∈ s ∨ '"' ∈ s))
    ∧ decodeCsvField (escapeCsvChars s) = some s := by
  have hmemq : needsQuoting s = true ↔ (',' ∈ s ∨ '\n' ∈ s ∨ '"' ∈ s) := by
    simp [needsQuoting]
    tauto
  constructor
  · constructor
    · rintro ⟨t, ht⟩
      by_cases hq : needsQuoting s = true
      · exact hmemq.mp hq
      · rw [escapeCsvChars, if_neg hq] at ht
        refine Or.inr (Or.inr ?_)
        rw [ht]
        exact List.mem_cons_self _ _
    · intro hmem
      refine ⟨doubleQuotes s, ?_⟩
      rw [escapeCsvChars, if_pos (hmemq.mpr hmem)]
  · by_cases hq : needsQuoting s = true
    · rw [escapeCsvChars, if_pos hq]
      simp [decodeCsvField, parseQuotedBody_doubleQuotes]
    · rw [escapeCsvChars, if_neg hq]
      cases s with
      | nil => rfl
      | cons c rest =>
        have hc : c ≠ '"' := by
          intro hc
          subst hc
          apply hq
          apply hmemq.mpr
          exact Or.inr (Or.inr (List.mem_cons_self _ _))
        simp [decodeCsvField, hc]

/-- Witness for C8: a field containing a comma, a quote and a newline
survives the encode-decode round trip unchanged. -/
theorem csv_quoting_roundtrip_witness :
    decodeCsvField (escapeCsvChars juicyField) = some juicyField :=
  (csv_quoting_roundtrip juicyField).2

end GithubScraper
